import Mathlib

/-!
Verification of the bulk-validation orchestrator in `apps/zadmin/tasks.py`
(functions `tally_job_results`, `bulk_validate_file`, `add_validation_jobs`,
`get_context`, `notify_success`, `notify_failed`).

The data store, e-mail delivery, audit log and task queue are external
collaborators; their observable calls are embedded as explicit event lists,
and the rows the functions read are passed in as explicit lists.
-/

/-- File review statuses used by the selection rules (`amo.STATUS_*`).
The `amo` module is an external collaborator; only the membership of a
status in the fixed sets below matters to the orchestrator. -/
inductive FileStatus where
  | public
  | unreviewed
  | pending
  | nominated
  | lite
  | liteAndNominated
  | beta
  | disabled
  deriving DecidableEq, Repr

/-- `amo.STATUS_UNDER_REVIEW`: the fixed set of under-review statuses. -/
def STATUS_UNDER_REVIEW : List FileStatus :=
  [FileStatus.unreviewed, FileStatus.pending, FileStatus.nominated]

/-- `amo.LITE_STATUSES`: the preliminary-review statuses. -/
def LITE_STATUSES : List FileStatus :=
  [FileStatus.lite, FileStatus.liteAndNominated]

/-- `prelim_app = list(amo.STATUS_UNDER_REVIEW) + [amo.STATUS_BETA]`
(computed at the top of `add_validation_jobs`). -/
def prelim_app : List FileStatus := STATUS_UNDER_REVIEW ++ [FileStatus.beta]

/-- An `AppVersion` row: an application version record, as used for
`job.curr_max_version` and `job.target_version`. -/
structure AppVersion where
  id : Nat
  application : Nat
  version : String
  deriving DecidableEq, Repr

/-- A `ValidationJob` row. `completed` is a timestamp (`Option Nat`, `none`
until set), `finishEmail` the optional operator notification address. -/
structure ValidationJob where
  id : Nat
  application : Nat
  currMaxVersion : AppVersion
  targetVersion : AppVersion
  finishEmail : Option String
  completed : Option Nat
  deriving DecidableEq, Repr

/-- `amo.APP_IDS[app_id].pretty`: the external table of application display
names, abstracted as a string rendering of the application id. -/
def appPretty (app : Nat) : String := "app#" ++ toString app

/-- Subject of the operator completion e-mail built in `tally_job_results`:
`'Behold! Validation results for %s %s->%s'` filled with the application's
pretty name, the current-max version and the target version. -/
def operatorSubject (job : ValidationJob) : String :=
  "Behold! Validation results for " ++ appPretty job.application ++ " "
    ++ job.currMaxVersion.version ++ "->" ++ job.targetVersion.version

/-- The operator completion e-mail sent by `tally_job_results`. -/
structure OperatorEmail where
  subject : String
  recipient : String
  deriving DecidableEq, Repr

/-- The two aggregates of the raw SQL in `tally_job_results`:
`select sum(1), sum(case when completed IS NOT NULL then 1 else 0 end)`
over the job's result rows.  SQL `SUM` over zero rows is `NULL` (embedded
as `none`); over `n > 0` rows it is the row count resp. the count of rows
with a non-null `completed`. -/
def tallySums (rows : List (Option Nat)) : Option Nat × Option Nat :=
  match rows with
  | [] => (none, none)
  | _ => (some rows.length, some (rows.countP Option.isSome))

/-- `tally_job_results(job_id)`: runs the aggregate query over the job's
result rows; if the completed count equals the total (Python `==`, where
`None == None` holds) it sets `job.completed = now` and, when
`job.finish_email` is set, sends the operator summary e-mail.  Returns the
(possibly updated) job row and the e-mails sent by this invocation. -/
def tally_job_results (rows : List (Option Nat)) (job : ValidationJob)
    (now : Nat) : ValidationJob × List OperatorEmail :=
  let sums := tallySums rows
  if sums.2 = sums.1 then
    let job2 := { job with completed := some now }
    match job.finishEmail with
    | some addr => (job2, [{ subject := operatorSubject job, recipient := addr }])
    | none => (job2, [])
  else (job, [])

/-- A job row that has already been completed (its `completed` was set at
time 100 by an earlier tally) and that carries an operator address. -/
def jobAlreadyDone : ValidationJob :=
  { id := 1, application := 1,
    currMaxVersion := { id := 10, application := 1, version := "4.0" },
    targetVersion := { id := 11, application := 1, version := "5.0" },
    finishEmail := some "ops@example.com",
    completed := some 100 }

/-- A fresh job row (no `completed`) with an operator address, for the
zero-result-row scenario. -/
def jobNoRows : ValidationJob :=
  { id := 2, application := 1,
    currMaxVersion := { id := 10, application := 1, version := "4.0" },
    targetVersion := { id := 11, application := 1, version := "5.0" },
    finishEmail := some "ops@example.com",
    completed := none }

/-- C1: `tally_job_results` is NOT a no-op when re-invoked on an already
completed job: with a single, completed result row and `completed` already
set (to 100), a second invocation at time 200 overwrites `completed` with
the new timestamp and sends the operator e-mail again — the code has no
`completed IS NULL` guard, contradicting the required at-most-once
transition and single completion e-mail. -/
theorem tally_second_call_not_noop :
    (tally_job_results [some 50] jobAlreadyDone 200).1.completed = some 200
    ∧ jobAlreadyDone.completed = some 100
    ∧ (tally_job_results [some 50] jobAlreadyDone 200).2.length = 1 :=
  ⟨rfl, rfl, rfl⟩

/-- C2 counterexample: a job with ZERO result rows IS transitioned and the
operator e-mail IS sent: `SUM` over zero rows yields SQL `NULL` for both
aggregates, and Python `None == None` holds, so the zero-row job is marked
completed — contradicting the claim that a job with zero result rows is
not transitioned and no e-mail is sent. -/
theorem tally_zero_rows_transitions :
    (tally_job_results [] jobNoRows 7).1.completed = some 7
    ∧ (tally_job_results [] jobNoRows 7).2.length = 1 :=
  ⟨rfl, rfl⟩

/-- C2 (amended): one invocation of `tally_job_results` transitions the job
(sets `completed := now`) and sends the summary e-mail (naming application,
current-max and target version) to the finish address exactly when every
result row of the job is complete — including, vacuously, a job with zero
result rows (both SQL sums are `NULL` and compare equal); otherwise it
changes nothing and sends nothing. -/
theorem tally_transitions_iff_all_complete (rows : List (Option Nat))
    (job : ValidationJob) (now : Nat) :
    tally_job_results rows job now =
      if rows.all Option.isSome then
        ({ job with completed := some now },
          match job.finishEmail with
          | some addr => [{ subject := operatorSubject job, recipient := addr }]
          | none => [])
      else (job, []) := by
  unfold tally_job_results tallySums
  cases rows with
  | nil => cases h : job.finishEmail <;> simp [h]
  | cons r rs =>
    by_cases hall : (r :: rs).all Option.isSome
    · have hcount : (r :: rs).countP Option.isSome = (r :: rs).length := by
        rw [List.countP_eq_length]
        intro a ha
        exact List.all_eq_true.mp hall a ha
      cases h : job.finishEmail <;> simp [hall, hcount, h]
    · have hcount : (r :: rs).countP Option.isSome ≠ (r :: rs).length := by
        intro hc
        exact hall (List.all_eq_true.mpr (List.countP_eq_length.mp hc))
      simp [hall]
      intro hc
      exact absurd (hc.trans (List.length_cons r rs).symm) hcount

/-- The mutable fields of a `ValidationResult` row touched by
`bulk_validate_file`: completion timestamp, structured outcome (number of
errors reported by the validator; `none` until an outcome is applied) and
the optional task-error trace. -/
structure ResultState where
  completed : Option Nat
  errors : Option Nat
  taskError : Option String
  deriving DecidableEq, Repr

/-- A freshly created `ValidationResult` row (`completed=null`, no outcome,
no task error), as created by `add_validation_jobs`. -/
def freshResult : ResultState :=
  { completed := none, errors := none, taskError := none }

/-- Outcome of one `run_validator` call: either a structured report (its
error count) or a raised exception with its formatted trace. -/
inductive RunOutcome where
  | ok (errors : Nat)
  | raised (trace : String)
  deriving DecidableEq, Repr

/-- Observable calls of one `bulk_validate_file` invocation, in order:
`res.save()`, `tally_job_results(job_id)`, and (failure only) the final
`raise etype, val, tb`. -/
inductive BvEvent where
  | save (s : ResultState)
  | tallyCall (jobId : Nat)
  | reraise (trace : String)
  deriving DecidableEq, Repr

/-- Modelled from the spec: `ValidationResult.apply_validation` is defined
in `zadmin/models.py`, which is not among the sources here.  Per the spec
(outcome exclusivity of §3 and §4.3 step 7: "a subsequent successful retry
must overwrite the earlier error with a real outcome") it applies the
structured outcome to the row, replacing any earlier task error. -/
def apply_validation (s : ResultState) (errs : Nat) : ResultState :=
  { s with errors := some errs, taskError := none }

/-- `bulk_validate_file(result_id)` acting on the result row `s`, given the
validator's outcome `run` at time `now`: sets `completed = now` regardless;
on an exception stores the formatted trace as `task_error`, otherwise
applies the validation outcome; saves the row, invokes the tally, and
re-raises the original exception (failure only) last. -/
def bulk_validate_file (s : ResultState) (jobId now : Nat)
    (run : RunOutcome) : ResultState × List BvEvent :=
  match run with
  | RunOutcome.ok errs =>
      let s2 := apply_validation { s with completed := some now } errs
      (s2, [BvEvent.save s2, BvEvent.tallyCall jobId])
  | RunOutcome.raised tr =>
      let s2 := { s with completed := some now, taskError := some tr }
      (s2, [BvEvent.save s2, BvEvent.tallyCall jobId, BvEvent.reraise tr])

/-- Run a sequence of `bulk_validate_file` invocations (each with its own
timestamp and validator outcome) against the same result row. -/
def runAll (jobId : Nat) (s : ResultState) :
    List (Nat × RunOutcome) → ResultState
  | [] => s
  | (t, r) :: rest => runAll jobId (bulk_validate_file s jobId t r).1 rest

/-- The task queue's retry discipline: a worker invocation is repeated only
after a raised exception (the re-raise exists precisely so that the queue
retries); a successful invocation is terminal for the row. -/
def retryHistory : List (Nat × RunOutcome) → Bool
  | [] => true
  | (_, RunOutcome.ok _) :: rest => rest.isEmpty
  | (_, RunOutcome.raised _) :: rest => retryHistory rest

/-- Outcome exclusivity for a result row: once completed, it does not carry
both a task error and a validation outcome. -/
def exclusiveOutcome (s : ResultState) : Prop :=
  s.completed.isSome → ¬(s.taskError.isSome ∧ s.errors.isSome)

theorem runAll_exclusive (jobId : Nat) :
    ∀ (runs : List (Nat × RunOutcome)) (s : ResultState),
      retryHistory runs = true → s.errors = none →
      exclusiveOutcome (runAll jobId s runs)
  | [], s, _, herr => by
      intro _
      simp [runAll, herr]
  | (t, RunOutcome.ok e) :: rest, s, hret, _ => by
      have hrest : rest = [] := by
        simpa [retryHistory, List.isEmpty_iff] using hret
      subst hrest
      intro _
      simp [runAll, bulk_validate_file, apply_validation]
  | (t, RunOutcome.raised tr) :: rest, s, hret, herr => by
      have hret2 : retryHistory rest = true := by
        simpa [retryHistory] using hret
      exact runAll_exclusive jobId rest _ hret2 (by simp [bulk_validate_file, herr])

/-- C4: (1) a successful `bulk_validate_file` run overwrites any earlier
task-error trace with the real outcome (`task_error` cleared, outcome
applied), whatever state the row was left in by earlier attempts; and
(2) starting from a fresh result row, any sequence of worker invocations
following the queue's retry discipline (retries only after a raised
exception) leaves the row outcome-exclusive: once completed it never
carries both a non-empty task error and a validation outcome. -/
theorem result_outcome_exclusive :
    (∀ (s : ResultState) (jobId now errs : Nat),
        (bulk_validate_file s jobId now (RunOutcome.ok errs)).1.taskError = none
        ∧ (bulk_validate_file s jobId now (RunOutcome.ok errs)).1.errors = some errs)
    ∧ ∀ (jobId : Nat) (runs : List (Nat × RunOutcome)),
        retryHistory runs = true →
        exclusiveOutcome (runAll jobId freshResult runs) :=
  ⟨fun _ _ _ _ => ⟨rfl, rfl⟩,
   fun jobId runs h => runAll_exclusive jobId runs freshResult h rfl⟩

/-- Witness for C4 at a concrete input: a failed attempt (trace "boom")
followed by a successful retry reporting 0 errors leaves the row
outcome-exclusive, and the successful run cleared the old error. -/
theorem result_outcome_exclusive_witness :
    (bulk_validate_file { completed := some 5, errors := none,
                          taskError := some "boom" } 1 9
        (RunOutcome.ok 0)).1.taskError = none
    ∧ exclusiveOutcome (runAll 1 freshResult
        [(5, RunOutcome.raised "boom"), (9, RunOutcome.ok 0)]) :=
  ⟨(result_outcome_exclusive.1 { completed := some 5, errors := none,
                                 taskError := some "boom" } 1 9 0).1,
   result_outcome_exclusive.2 1
     [(5, RunOutcome.raised "boom"), (9, RunOutcome.ok 0)] rfl⟩

/-- C5: one `bulk_validate_file` invocation sets the completion timestamp
to now regardless of the validator's outcome; on success it applies the
structured outcome, persists, invokes the tally and raises nothing; on a
raised exception it stores the full formatted trace as the task error and
re-raises the original exception, but only after the save and the tally
call for the result's job. -/
theorem bulk_validate_file_effects (s : ResultState) (jobId now : Nat) :
    (∀ errs,
        (bulk_validate_file s jobId now (RunOutcome.ok errs)).1.completed = some now
        ∧ (bulk_validate_file s jobId now (RunOutcome.ok errs)).1.errors = some errs
        ∧ (bulk_validate_file s jobId now (RunOutcome.ok errs)).2 =
            [BvEvent.save (bulk_validate_file s jobId now (RunOutcome.ok errs)).1,
             BvEvent.tallyCall jobId])
    ∧ ∀ tr,
        (bulk_validate_file s jobId now (RunOutcome.raised tr)).1.completed = some now
        ∧ (bulk_validate_file s jobId now (RunOutcome.raised tr)).1.taskError = some tr
        ∧ (bulk_validate_file s jobId now (RunOutcome.raised tr)).2 =
            [BvEvent.save (bulk_validate_file s jobId now (RunOutcome.raised tr)).1,
             BvEvent.tallyCall jobId,
             BvEvent.reraise tr] :=
  ⟨fun _ => ⟨rfl, rfl, rfl⟩, fun _ => ⟨rfl, rfl, rfl⟩⟩

/-- A `File` row as seen by the selection rules: its id and review status. -/
structure JobFile where
  id : Nat
  status : FileStatus
  deriving DecidableEq, Repr

/-- A `Version` row of an add-on as seen by `add_validation_jobs`: its id,
its files, and its application-compatibility entries as pairs
`(application id, max AppVersion id)`. -/
structure AddonVersion where
  id : Nat
  files : List JobFile
  apps : List (Nat × Nat)
  deriving DecidableEq, Repr

/-- `base = addon.versions.filter(apps__application=job.application.id,
apps__max=job.curr_max_version.id)`: the add-on's versions restricted to
those with a compatibility entry matching the job's application and
current-max version. -/
def baseVersions (versions : List AddonVersion) (appId currMaxId : Nat) :
    List AddonVersion :=
  versions.filter (fun v =>
    v.apps.any (fun p => p.1 == appId && p.2 == currMaxId))

/-- `.latest('id')` over a version queryset: the row with the greatest id,
or `none` when the queryset is empty (Django raises `ObjectDoesNotExist`,
which the caller turns into `None`). -/
def latestVersion : List AddonVersion → Option AddonVersion
  | [] => none
  | v :: vs =>
      match latestVersion vs with
      | none => some v
      | some w => if w.id < v.id then some v else some w

/-- Does the version own a file whose status lies in `sts`? -/
def hasFileWith (v : AddonVersion) (sts : List FileStatus) : Bool :=
  v.files.any (fun f => decide (f.status ∈ sts))

/-- The preliminary-review-eligible file ids of a version: the ids of its
files whose status lies in `prelim_app`
(`filter(files__status__in=prelim_app).values_list('files__id')`). -/
def prelimFileIds (v : AddonVersion) : List Nat :=
  (v.files.filter (fun f => decide (f.status ∈ prelim_app))).map (fun f => f.id)

/-- The per-addon file selection of `add_validation_jobs`: restrict to the
matching versions, then (1) if some restricted version has a public file,
take all files of the latest such version plus the preliminary-eligible
files of restricted versions with strictly greater id; (2) else if some
restricted version has a lite-status file, the same with the latest such
version; (3) else every preliminary-eligible file of the restricted set. -/
def selectFileIds (versions : List AddonVersion) (appId currMaxId : Nat) :
    List Nat :=
  let base := baseVersions versions appId currMaxId
  match latestVersion (base.filter (fun v =>
      hasFileWith v [FileStatus.public])) with
  | some pub =>
      pub.files.map (fun f => f.id)
        ++ (base.filter (fun v => pub.id < v.id)).flatMap prelimFileIds
  | none =>
      match latestVersion (base.filter (fun v =>
          hasFileWith v LITE_STATUSES)) with
      | some pre =>
          pre.files.map (fun f => f.id)
            ++ (base.filter (fun v => pre.id < v.id)).flatMap prelimFileIds
      | none => base.flatMap prelimFileIds

/-- Observable store/queue calls of the expansion loop of
`add_validation_jobs`: creating a `ValidationResult` row (with its fresh
result id, job id, file id and `completed` value) and enqueuing a
`bulk_validate_file` worker keyed by a result id. -/
inductive ExpandEvent where
  | createResult (resultId jobId fileId : Nat) (completed : Option Nat)
  | enqueueWorker (resultId : Nat)
  deriving DecidableEq, Repr

/-- The loop `for id in set(ids): result = ValidationResult.objects.create(
validation_job_id=job_pk, file_id=id); bulk_validate_file.delay(result.pk)`:
each iteration creates a row (the store assigns the next fresh result id,
`completed` defaulting to null) and then enqueues the worker for it. -/
def expandEvents (jobPk : Nat) : Nat → List Nat → List ExpandEvent
  | _, [] => []
  | nextId, fid :: rest =>
      ExpandEvent.createResult nextId jobPk fid none
        :: ExpandEvent.enqueueWorker nextId
        :: expandEvents jobPk (nextId + 1) rest

/-- `add_validation_jobs` for one add-on: select the file ids, deduplicate
them (`ids = set(ids)`), and run the create-then-enqueue loop, `nextId`
being the store's next fresh result id. -/
def add_validation_jobs (versions : List AddonVersion)
    (appId currMaxId jobPk nextId : Nat) : List ExpandEvent :=
  expandEvents jobPk nextId (selectFileIds versions appId currMaxId).dedup

theorem latestVersion_mem : ∀ (l : List AddonVersion) (w : AddonVersion),
    latestVersion l = some w → w ∈ l
  | [], w, h => by simp [latestVersion] at h
  | a :: t, w, h => by
      simp only [latestVersion] at h
      cases hl : latestVersion t with
      | none =>
          rw [hl] at h
          simp at h
          simp [h]
      | some u =>
          rw [hl] at h
          by_cases hid : u.id < a.id
          · simp [hid] at h
            simp [h]
          · simp [hid] at h
            exact List.mem_cons_of_mem a (h ▸ latestVersion_mem t u hl)

theorem latestVersion_eq_of_max : ∀ (l : List AddonVersion) (v : AddonVersion),
    v ∈ l → (∀ w ∈ l, w = v ∨ w.id < v.id) → latestVersion l = some v := by
  intro l
  induction l with
  | nil => intro v hmem _; exact absurd hmem (List.not_mem_nil v)
  | cons a t ih =>
    intro v hmem hmax
    by_cases ha : a = v
    · subst ha
      simp only [latestVersion]
      cases hl : latestVersion t with
      | none => rfl
      | some w =>
        rcases hmax w (List.mem_cons_of_mem _ (latestVersion_mem t w hl)) with he | hlt
        · subst he; simp
        · simp [hlt]
    · have hv : v ∈ t := by
        rcases List.mem_cons.mp hmem with h | h
        · exact absurd h.symm ha
        · exact h
      rcases hmax a (List.mem_cons_self a t) with he | hlt
      · exact absurd he ha
      · have hrec := ih v hv (fun w hw => hmax w (List.mem_cons_of_mem _ hw))
        simp only [latestVersion]
        rw [hrec]
        simp [Nat.lt_asymm hlt]

theorem selection_public_tier (versions : List AddonVersion)
    (appId currMaxId : Nat) (pub : AddonVersion)
    (hmem : pub ∈ baseVersions versions appId currMaxId)
    (hpub : hasFileWith pub [FileStatus.public] = true)
    (hmax : ∀ w ∈ baseVersions versions appId currMaxId,
      hasFileWith w [FileStatus.public] = true → w = pub ∨ w.id < pub.id) :
    ∀ f : Nat, f ∈ selectFileIds versions appId currMaxId ↔
      ((∃ fl ∈ pub.files, fl.id = f)
        ∨ ∃ v ∈ baseVersions versions appId currMaxId,
            pub.id < v.id ∧ ∃ fl ∈ v.files, fl.status ∈ prelim_app ∧ fl.id = f) := by
  have hlat : latestVersion ((baseVersions versions appId currMaxId).filter
      (fun v => hasFileWith v [FileStatus.public])) = some pub := by
    apply latestVersion_eq_of_max
    · exact List.mem_filter.mpr ⟨hmem, hpub⟩
    · intro w hw
      have hw2 := List.mem_filter.mp hw
      exact hmax w hw2.1 hw2.2
  intro f
  simp only [selectFileIds]
  rw [hlat]
  simp [prelimFileIds, and_assoc]

theorem selection_prelim_tier (versions : List AddonVersion)
    (appId currMaxId : Nat) (pre : AddonVersion)
    (hnopub : ∀ v ∈ baseVersions versions appId currMaxId,
      hasFileWith v [FileStatus.public] = false)
    (hmem : pre ∈ baseVersions versions appId currMaxId)
    (hpre : hasFileWith pre LITE_STATUSES = true)
    (hmax : ∀ w ∈ baseVersions versions appId currMaxId,
      hasFileWith w LITE_STATUSES = true → w = pre ∨ w.id < pre.id) :
    ∀ f : Nat, f ∈ selectFileIds versions appId currMaxId ↔
      ((∃ fl ∈ pre.files, fl.id = f)
        ∨ ∃ v ∈ baseVersions versions appId currMaxId,
            pre.id < v.id ∧ ∃ fl ∈ v.files, fl.status ∈ prelim_app ∧ fl.id = f) := by
  have hfilt : (baseVersions versions appId currMaxId).filter
      (fun v => hasFileWith v [FileStatus.public]) = [] := by
    rw [List.filter_eq_nil_iff]
    intro v hv
    simp [hnopub v hv]
  have hlat : latestVersion ((baseVersions versions appId currMaxId).filter
      (fun v => hasFileWith v LITE_STATUSES)) = some pre := by
    apply latestVersion_eq_of_max
    · exact List.mem_filter.mpr ⟨hmem, hpre⟩
    · intro w hw
      have hw2 := List.mem_filter.mp hw
      exact hmax w hw2.1 hw2.2
  intro f
  simp only [selectFileIds]
  rw [hfilt]
  simp only [latestVersion]
  rw [hlat]
  simp [prelimFileIds, and_assoc]

theorem selection_fallback_tier (versions : List AddonVersion)
    (appId currMaxId : Nat)
    (hnopub : ∀ v ∈ baseVersions versions appId currMaxId,
      hasFileWith v [FileStatus.public] = false)
    (hnolite : ∀ v ∈ baseVersions versions appId currMaxId,
      hasFileWith v LITE_STATUSES = false) :
    ∀ f : Nat, f ∈ selectFileIds versions appId currMaxId ↔
      ∃ v ∈ baseVersions versions appId currMaxId,
        ∃ fl ∈ v.files, fl.status ∈ prelim_app ∧ fl.id = f := by
  have hfilt : (baseVersions versions appId currMaxId).filter
      (fun v => hasFileWith v [FileStatus.public]) = [] := by
    rw [List.filter_eq_nil_iff]
    intro v hv
    simp [hnopub v hv]
  have hfilt2 : (baseVersions versions appId currMaxId).filter
      (fun v => hasFileWith v LITE_STATUSES) = [] := by
    rw [List.filter_eq_nil_iff]
    intro v hv
    simp [hnolite v hv]
  intro f
  simp only [selectFileIds]
  rw [hfilt, hfilt2]
  simp only [latestVersion]
  simp [prelimFileIds, and_assoc]

/-- C6: the per-addon file selection of `add_validation_jobs` follows the
three-tier precedence over the versions restricted to the job's
application and current-max version: (1) when a public file exists, all
files of the latest public version plus the preliminary-eligible files
(status in under-review ∪ beta) of strictly later restricted versions;
(2) else, when a lite-status file exists, the same rule anchored at the
latest lite version; (3) else every preliminary-eligible file of the
restricted set; and an empty selection creates zero result rows. -/
theorem selection_precedence (versions : List AddonVersion)
    (appId currMaxId : Nat) :
    (∀ pub ∈ baseVersions versions appId currMaxId,
      hasFileWith pub [FileStatus.public] = true →
      (∀ w ∈ baseVersions versions appId currMaxId,
        hasFileWith w [FileStatus.public] = true → w = pub ∨ w.id < pub.id) →
      ∀ f : Nat, f ∈ selectFileIds versions appId currMaxId ↔
        ((∃ fl ∈ pub.files, fl.id = f)
          ∨ ∃ v ∈ baseVersions versions appId currMaxId,
              pub.id < v.id ∧ ∃ fl ∈ v.files, fl.status ∈ prelim_app ∧ fl.id = f))
    ∧ (∀ pre ∈ baseVersions versions appId currMaxId,
      (∀ v ∈ baseVersions versions appId currMaxId,
        hasFileWith v [FileStatus.public] = false) →
      hasFileWith pre LITE_STATUSES = true →
      (∀ w ∈ baseVersions versions appId currMaxId,
        hasFileWith w LITE_STATUSES = true → w = pre ∨ w.id < pre.id) →
      ∀ f : Nat, f ∈ selectFileIds versions appId currMaxId ↔
        ((∃ fl ∈ pre.files, fl.id = f)
          ∨ ∃ v ∈ baseVersions versions appId currMaxId,
              pre.id < v.id ∧ ∃ fl ∈ v.files, fl.status ∈ prelim_app ∧ fl.id = f))
    ∧ ((∀ v ∈ baseVersions versions appId currMaxId,
        hasFileWith v [FileStatus.public] = false) →
      (∀ v ∈ baseVersions versions appId currMaxId,
        hasFileWith v LITE_STATUSES = false) →
      ∀ f : Nat, f ∈ selectFileIds versions appId currMaxId ↔
        ∃ v ∈ baseVersions versions appId currMaxId,
          ∃ fl ∈ v.files, fl.status ∈ prelim_app ∧ fl.id = f)
    ∧ (selectFileIds versions appId currMaxId = [] →
      ∀ jobPk nextId,
        add_validation_jobs versions appId currMaxId jobPk nextId = []) :=
  ⟨fun pub hmem hpub hmax =>
      selection_public_tier versions appId currMaxId pub hmem hpub hmax,
   fun pre hmem hnopub hpre hmax =>
      selection_prelim_tier versions appId currMaxId pre hnopub hmem hpre hmax,
   fun hnopub hnolite =>
      selection_fallback_tier versions appId currMaxId hnopub hnolite,
   fun hsel _ _ => by simp [add_validation_jobs, hsel, expandEvents]⟩

/-- The spec's selection-precedence scenario: an add-on with a public file
(id 5, version id 5) and a later preliminary (pending) file (id 7, version
id 7), both versions compatible with application 1 / current-max 10. -/
def demoVersions : List AddonVersion :=
  [ { id := 5, files := [{ id := 5, status := FileStatus.public }],
      apps := [(1, 10)] },
    { id := 7, files := [{ id := 7, status := FileStatus.pending }],
      apps := [(1, 10)] } ]

/-- Witness for C6 at the spec's concrete scenario: with a public file
id 5 and a later preliminary file id 7, both 5 and 7 are selected and the
never-eligible id 9 is not. -/
theorem selection_precedence_witness :
    5 ∈ selectFileIds demoVersions 1 10
    ∧ 7 ∈ selectFileIds demoVersions 1 10
    ∧ ¬9 ∈ selectFileIds demoVersions 1 10 :=
  ⟨((selection_precedence demoVersions 1 10).1
      { id := 5, files := [{ id := 5, status := FileStatus.public }],
        apps := [(1, 10)] }
      (by decide) (by decide) (by decide) 5).mpr (by decide),
   ((selection_precedence demoVersions 1 10).1
      { id := 5, files := [{ id := 5, status := FileStatus.public }],
        apps := [(1, 10)] }
      (by decide) (by decide) (by decide) 7).mpr (by decide),
   fun h =>
     by exact absurd (((selection_precedence demoVersions 1 10).1
        { id := 5, files := [{ id := 5, status := FileStatus.public }],
          apps := [(1, 10)] }
        (by decide) (by decide) (by decide) 9).mp h) (by decide)⟩

/-- Is the event the creation of a result row for file `f`? -/
def isCreateForFile (f : Nat) : ExpandEvent → Bool
  | ExpandEvent.createResult _ _ fid _ => fid == f
  | _ => false

/-- Is the event the creation of the result row with id `r`? -/
def isCreateForResult (r : Nat) : ExpandEvent → Bool
  | ExpandEvent.createResult rid _ _ _ => rid == r
  | _ => false

/-- Is the event the enqueue of the worker keyed by result id `r`? -/
def isEnqueueFor (r : Nat) : ExpandEvent → Bool
  | ExpandEvent.enqueueWorker rid => rid == r
  | _ => false

theorem countP_expand_createFile : ∀ (ids : List Nat) (jobPk s f : Nat),
    (expandEvents jobPk s ids).countP (isCreateForFile f) = ids.count f
  | [], _, _, _ => by simp [expandEvents]
  | fid :: rest, jobPk, s, f => by
      have ih := countP_expand_createFile rest jobPk (s + 1) f
      by_cases h : fid = f <;>
        simp [expandEvents, List.countP_cons, isCreateForFile, ih,
              List.count_cons, h]

theorem countP_expand_enqueue : ∀ (ids : List Nat) (jobPk s r : Nat),
    (expandEvents jobPk s ids).countP (isEnqueueFor r) =
      if s ≤ r ∧ r < s + ids.length then 1 else 0
  | [], _, s, r => by
      simp only [expandEvents, List.countP_nil, List.length_nil, Nat.add_zero]
      split_ifs <;> omega
  | fid :: rest, jobPk, s, r => by
      have ih := countP_expand_enqueue rest jobPk (s + 1) r
      have hhead : expandEvents jobPk s (fid :: rest) =
          ExpandEvent.createResult s jobPk fid none
            :: ExpandEvent.enqueueWorker s
            :: expandEvents jobPk (s + 1) rest := rfl
      rw [hhead, List.countP_cons, List.countP_cons, ih]
      by_cases h : s = r
      · subst h
        simp [isEnqueueFor]
      · have hbeq : (s == r) = false := by
          simp [h]
        simp [isEnqueueFor, hbeq]
        split_ifs <;> omega

theorem countP_expand_createRid : ∀ (ids : List Nat) (jobPk s r : Nat),
    (expandEvents jobPk s ids).countP (isCreateForResult r) =
      if s ≤ r ∧ r < s + ids.length then 1 else 0
  | [], _, s, r => by
      simp only [expandEvents, List.countP_nil, List.length_nil, Nat.add_zero]
      split_ifs <;> omega
  | fid :: rest, jobPk, s, r => by
      have ih := countP_expand_createRid rest jobPk (s + 1) r
      have hhead : expandEvents jobPk s (fid :: rest) =
          ExpandEvent.createResult s jobPk fid none
            :: ExpandEvent.enqueueWorker s
            :: expandEvents jobPk (s + 1) rest := rfl
      rw [hhead, List.countP_cons, List.countP_cons, ih]
      by_cases h : s = r
      · subst h
        simp [isCreateForResult]
      · have hbeq : (s == r) = false := by
          simp [h]
        simp [isCreateForResult, hbeq]
        split_ifs <;> omega

theorem expand_create_shape : ∀ (ids : List Nat) (jobPk s : Nat),
    ∀ e ∈ expandEvents jobPk s ids, ∀ rid jid fid c,
      e = ExpandEvent.createResult rid jid fid c → c = none ∧ jid = jobPk
  | [], _, _, e, he => by simp [expandEvents] at he
  | f :: rest, jobPk, s, e, he => by
      simp only [expandEvents, List.mem_cons] at he
      rcases he with h | h | h
      · intro rid jid fid c hc
        rw [h] at hc
        cases hc
        exact ⟨rfl, rfl⟩
      · intro rid jid fid c hc
        rw [h] at hc
        cases hc
      · exact expand_create_shape rest jobPk (s + 1) e h

theorem expand_enqueue_preceded :
    ∀ (ids : List Nat) (jobPk s n r : Nat),
      (expandEvents jobPk s ids).get? n = some (ExpandEvent.enqueueWorker r) →
      ∃ m fid, m < n ∧ (expandEvents jobPk s ids).get? m
        = some (ExpandEvent.createResult r jobPk fid none)
  | [], _, _, n, r => by simp [expandEvents]
  | fid :: rest, jobPk, s, n, r => by
      match n with
      | 0 => intro h; simp [expandEvents] at h
      | 1 =>
          intro h
          have hr : s = r := by
            simp [expandEvents] at h
            exact h
          exact ⟨0, fid, Nat.zero_lt_one, by simp [expandEvents, hr]⟩
      | Nat.succ (Nat.succ k) =>
          intro h
          have h2 : (expandEvents jobPk (s + 1) rest).get? k
              = some (ExpandEvent.enqueueWorker r) := by
            simpa [expandEvents] using h
          obtain ⟨m, fid2, hm, hget⟩ :=
            expand_enqueue_preceded rest jobPk (s + 1) k r h2
          exact ⟨m + 2, fid2, by omega, by simpa [expandEvents] using hget⟩

/-- C8: for each add-on, the expansion loop of `add_validation_jobs`
deduplicates the selected file ids and, per distinct selected file id,
creates exactly one `ValidationResult` row (with the job's pk and a null
completion) and enqueues exactly one `bulk_validate_file` worker keyed by
that row's fresh result id, the row creation preceding the enqueue. -/
theorem expander_one_row_one_worker (versions : List AddonVersion)
    (appId currMaxId jobPk nextId : Nat) :
    (∀ f, (add_validation_jobs versions appId currMaxId jobPk nextId).countP
        (isCreateForFile f)
        = if f ∈ selectFileIds versions appId currMaxId then 1 else 0)
    ∧ (∀ r, (add_validation_jobs versions appId currMaxId jobPk nextId).countP
        (isEnqueueFor r)
        = (add_validation_jobs versions appId currMaxId jobPk nextId).countP
            (isCreateForResult r))
    ∧ (∀ e ∈ add_validation_jobs versions appId currMaxId jobPk nextId,
        ∀ rid jid fid c, e = ExpandEvent.createResult rid jid fid c →
          c = none ∧ jid = jobPk)
    ∧ (∀ n r, (add_validation_jobs versions appId currMaxId jobPk nextId).get? n
          = some (ExpandEvent.enqueueWorker r) →
        ∃ m fid, m < n ∧
          (add_validation_jobs versions appId currMaxId jobPk nextId).get? m
            = some (ExpandEvent.createResult r jobPk fid none)) := by
  refine ⟨fun f => ?_, fun r => ?_, ?_, ?_⟩
  · rw [add_validation_jobs, countP_expand_createFile]
    by_cases hf : f ∈ selectFileIds versions appId currMaxId
    · rw [if_pos hf]
      exact List.count_eq_one_of_mem (List.nodup_dedup _) (List.mem_dedup.mpr hf)
    · rw [if_neg hf]
      exact List.count_eq_zero.mpr (fun h => hf (List.mem_dedup.mp h))
  · rw [add_validation_jobs, countP_expand_enqueue, countP_expand_createRid]
  · rw [add_validation_jobs]
    exact expand_create_shape _ jobPk nextId
  · rw [add_validation_jobs]
    exact fun n r => expand_enqueue_preceded _ jobPk nextId n r

/-- Witness for C8 at the spec's concrete scenario: in the expansion of
`demoVersions` for job 3 (fresh result ids from 100), the worker enqueued
at position 1 is keyed by result id 100, whose row was created just
before it with a null completion. -/
theorem expander_one_row_one_worker_witness :
    ∃ m fid, m < 1 ∧ (add_validation_jobs demoVersions 1 10 3 100).get? m
      = some (ExpandEvent.createResult 100 3 fid none) :=
  (expander_one_row_one_worker demoVersions 1 10 3 100).2.2.2 1 100 (by decide)

/-- The template context built by `get_context`. -/
structure Ctx where
  addonName : String
  addonVersion : String
  application : String
  compatLink : String
  resultLinks : String
  versionStr : String
  deriving DecidableEq, Repr

/-- `absolutify(reverse('devhub.validation_result', args=[addon.slug, r.pk]))`:
the external URL resolver, abstracted as concrete string building. -/
def resultLink (slug : String) (pk : Nat) : String :=
  "https://site/validation-result/" ++ slug ++ "/" ++ toString pk

/-- `absolutify(reverse('devhub.versions.edit', args=[addon.pk, version.pk]))`. -/
def compatEditLink (addonPk versionPk : Nat) : String :=
  "https://site/versions-edit/" ++ toString addonPk ++ "/" ++ toString versionPk

/-- `get_context(addon, version, job, results)`: the context rendered into
notification templates — add-on name, version string, application,
compatibility edit link, space-joined result links and the job's target
version. -/
def get_context (addonName addonSlug : String) (addonPk : Nat)
    (versionStr : String) (versionPk : Nat) (job : ValidationJob)
    (resultPks : List Nat) : Ctx :=
  { addonName := addonName,
    addonVersion := versionStr,
    application := appPretty job.application,
    compatLink := compatEditLink addonPk versionPk,
    resultLinks := String.intercalate " "
      (resultPks.map (fun pk => resultLink addonSlug pk)),
    versionStr := job.targetVersion.version }

/-- A `ValidationResult` row as read by `notify_success`: pk, owning job,
owning file and the errors count of its outcome. -/
structure ResultRow where
  pk : Nat
  jobId : Nat
  filePk : Nat
  errors : Nat
  deriving DecidableEq, Repr

/-- An `ApplicationsVersions` entry of a version (`version.apps`). -/
structure AppCompat where
  application : Nat
  max : AppVersion
  deriving DecidableEq, Repr

/-- A `Version` row together with the add-on data `notify_success` reads
through it: its compat entries, the pks of its files, and the owning
add-on's pk, name, slug and author e-mail addresses. -/
structure VersionInfo where
  pk : Nat
  version : String
  apps : List AppCompat
  filePks : List Nat
  addonPk : Nat
  addonName : String
  addonSlug : String
  authors : List String
  deriving DecidableEq, Repr

/-- The `data` dict passed to the notify tasks: subject template, body
template and the `preview_only` flag. -/
structure NotifyData where
  subject : String
  text : String
  preview_only : Bool
  deriving DecidableEq, Repr

/-- Observable calls of the notify tasks: persisting a compat entry's new
max version (`app.save()`), real mail (`send_mail`), the two preview
delivery paths, and the two audit-log kinds
(`BULK_VALIDATION_UPDATED` / `BULK_VALIDATION_EMAILED`). -/
inductive NotifyEvent where
  | saveCompat (versionPk application : Nat) (newMax : String)
  | sendMail (subject body recipientAddr : String)
  | previewSuccessMail (subject body recipientAddr : String)
  | previewFailureMail (subject body recipientAddr : String)
  | auditUpdated (addonPk versionPk : Nat) (versionStr target : String)
  | auditEmailed (addonPk versionPk : Nat) (versionStr filename target : String)
  deriving DecidableEq, Repr

/-- `ValidationResult.objects.filter(validation_job=job,
file__pk__in=version.files)`: the job's result rows owned by the
version's files. -/
def jobResultsForVersion (results : List ResultRow) (job : ValidationJob)
    (v : VersionInfo) : List ResultRow :=
  results.filter (fun r => r.jobId == job.id && v.filePks.contains r.filePk)

/-- `any(errors)` over the version's result rows: does some result of the
job on this version's files have a non-zero errors outcome? -/
def versionHasErrors (job : ValidationJob) (results : List ResultRow)
    (v : VersionInfo) : Bool :=
  ((jobResultsForVersion results job v).map (fun r => r.errors)).any
    (fun e => e != 0)

/-- The compat entries acted on for a version: those matching the job's
application (`version.apps.filter(application=
job.curr_max_version.application)`) whose max version equals the job's
current-max version while the job's target version differs from it. -/
def eligibleApps (job : ValidationJob) (v : VersionInfo) : List AppCompat :=
  (v.apps.filter (fun a => a.application == job.currMaxVersion.application)).filter
    (fun a => a.max.version == job.currMaxVersion.version
      && job.targetVersion.version != a.max.version)

/-- The author-notification events of `notify_success` for one version:
per author, render subject and body against the version's context and
either preview-deliver (dry run) or really send and record the
`BULK_VALIDATION_UPDATED` audit entry. -/
def successMailEvents (render : String → Ctx → String) (job : ValidationJob)
    (results : List ResultRow) (data : NotifyData) (v : VersionInfo) :
    List NotifyEvent :=
  let ctx := get_context v.addonName v.addonSlug v.addonPk v.version v.pk job
    ((jobResultsForVersion results job v).map (fun r => r.pk))
  v.authors.flatMap (fun author =>
    if data.preview_only then
      [NotifyEvent.previewSuccessMail (render data.subject ctx)
        (render data.text ctx) author]
    else
      [NotifyEvent.sendMail (render data.subject ctx)
        (render data.text ctx) author,
       NotifyEvent.auditUpdated v.addonPk v.pk v.version
        job.targetVersion.version])

/-- The body of the per-version loop of `notify_success`: skip the version
entirely when one of its files has validation errors; otherwise persist
the bump of every eligible compat entry (unless in preview mode) and, when
at least one entry was (or would be) bumped, fire the author mails. -/
def notify_success_version (render : String → Ctx → String)
    (job : ValidationJob) (results : List ResultRow) (data : NotifyData)
    (v : VersionInfo) : List NotifyEvent :=
  if versionHasErrors job results v then []
  else
    (if data.preview_only then []
     else (eligibleApps job v).map (fun a =>
       NotifyEvent.saveCompat v.pk a.application job.targetVersion.version))
    ++ (if (eligibleApps job v).isEmpty then []
        else successMailEvents render job results data v)

/-- `notify_success(version_pks, job_pk, data)` over the versions in scope. -/
def notify_success (render : String → Ctx → String)
    (versions : List VersionInfo) (job : ValidationJob)
    (results : List ResultRow) (data : NotifyData) : List NotifyEvent :=
  versions.flatMap (notify_success_version render job results data)

/-- A `ValidationResult` row as read by `notify_failed`, with the file,
version and add-on data reached through it. -/
structure FailedResult where
  pk : Nat
  jobId : Nat
  filePk : Nat
  filename : String
  versionPk : Nat
  versionStr : String
  addonPk : Nat
  addonName : String
  addonSlug : String
  authors : List String
  deriving DecidableEq, Repr

/-- The body of the per-result loop of `notify_failed`: per author, render
and deliver (or preview-deliver) the failure mail, then — outside both the
author loop and the preview guard — record the `BULK_VALIDATION_EMAILED`
audit entry with the version string, the file's filename and the job's
target version. -/
def notify_failed_result (render : String → Ctx → String)
    (job : ValidationJob) (data : NotifyData) (r : FailedResult) :
    List NotifyEvent :=
  let ctx := get_context r.addonName r.addonSlug r.addonPk r.versionStr
    r.versionPk job [r.pk]
  (r.authors.flatMap (fun author =>
    if data.preview_only then
      [NotifyEvent.previewFailureMail (render data.subject ctx)
        (render data.text ctx) author]
    else
      [NotifyEvent.sendMail (render data.subject ctx)
        (render data.text ctx) author]))
  ++ [NotifyEvent.auditEmailed r.addonPk r.versionPk r.versionStr r.filename
       job.targetVersion.version]

/-- `notify_failed(file_pks, job_pk, data)`: loop over the job's result
rows whose file is among the given file pks. -/
def notify_failed (render : String → Ctx → String) (job : ValidationJob)
    (fresults : List FailedResult) (filePks : List Nat)
    (data : NotifyData) : List NotifyEvent :=
  (fresults.filter (fun r => r.jobId == job.id && filePks.contains r.filePk)).flatMap
    (notify_failed_result render job data)

/-- How a real success-notification run maps to its preview run: real
sends become preview-success deliveries; compat saves and audit entries
are absent in preview. -/
def toPreviewSuccess : NotifyEvent → Option NotifyEvent
  | NotifyEvent.sendMail su b a => some (NotifyEvent.previewSuccessMail su b a)
  | NotifyEvent.saveCompat _ _ _ => none
  | NotifyEvent.auditUpdated _ _ _ _ => none
  | e => some e

/-- How a real failure-notification run maps to its preview run: real
sends become preview-failure deliveries; everything else (in particular
the audit entries, which `notify_failed` records outside the preview
guard) is kept. -/
def toPreviewFailure : NotifyEvent → Option NotifyEvent
  | NotifyEvent.sendMail su b a => some (NotifyEvent.previewFailureMail su b a)
  | e => some e

theorem filterMap_toPreviewSuccess_saves :
    ∀ (l : List AppCompat) (vpk : Nat) (tv : String),
      (l.map (fun a => NotifyEvent.saveCompat vpk a.application tv)).filterMap
        toPreviewSuccess = []
  | [], _, _ => rfl
  | a :: rest, vpk, tv => by
      simp [toPreviewSuccess, filterMap_toPreviewSuccess_saves rest vpk tv]

theorem filterMap_toPreviewSuccess_mails :
    ∀ (authors : List String) (su b : String) (ap vp : Nat) (vs tg : String),
      ((authors.flatMap (fun author =>
          [NotifyEvent.sendMail su b author,
           NotifyEvent.auditUpdated ap vp vs tg])).filterMap toPreviewSuccess)
        = authors.flatMap (fun author =>
            [NotifyEvent.previewSuccessMail su b author])
  | [], _, _, _, _, _, _ => rfl
  | author :: rest, su, b, ap, vp, vs, tg => by
      simp [toPreviewSuccess,
            filterMap_toPreviewSuccess_mails rest su b ap vp vs tg]

theorem filterMap_toPreviewFailure_mails :
    ∀ (authors : List String) (su b : String),
      ((authors.flatMap (fun author =>
          [NotifyEvent.sendMail su b author])).filterMap toPreviewFailure)
        = authors.flatMap (fun author =>
            [NotifyEvent.previewFailureMail su b author])
  | [], _, _ => rfl
  | author :: rest, su, b => by
      simp [toPreviewFailure, filterMap_toPreviewFailure_mails rest su b]

theorem notify_success_version_preview_eq (render : String → Ctx → String)
    (job : ValidationJob) (results : List ResultRow) (v : VersionInfo)
    (s t : String) :
    notify_success_version render job results
        { subject := s, text := t, preview_only := true } v
      = (notify_success_version render job results
          { subject := s, text := t, preview_only := false } v).filterMap
            toPreviewSuccess := by
  unfold notify_success_version successMailEvents
  cases herr : versionHasErrors job results v
  · cases hemp : (eligibleApps job v).isEmpty
    · simp [herr, hemp, List.filterMap_append,
            filterMap_toPreviewSuccess_saves,
            filterMap_toPreviewSuccess_mails]
      intro a _
      rfl
    · simp [herr, hemp, List.filterMap_append,
            filterMap_toPreviewSuccess_saves]
      intro a _
      rfl
  · simp [herr]

theorem notify_failed_result_preview_eq (render : String → Ctx → String)
    (job : ValidationJob) (r : FailedResult) (s t : String) :
    notify_failed_result render job
        { subject := s, text := t, preview_only := true } r
      = (notify_failed_result render job
          { subject := s, text := t, preview_only := false } r).filterMap
            toPreviewFailure := by
  unfold notify_failed_result
  simp [List.filterMap_append, filterMap_toPreviewFailure_mails,
        toPreviewFailure]

theorem notify_success_preview_eq (render : String → Ctx → String)
    (versions : List VersionInfo) (job : ValidationJob)
    (results : List ResultRow) (s t : String) :
    notify_success render versions job results
        { subject := s, text := t, preview_only := true }
      = (notify_success render versions job results
          { subject := s, text := t, preview_only := false }).filterMap
            toPreviewSuccess := by
  unfold notify_success
  induction versions with
  | nil => rfl
  | cons v rest ih =>
      simp only [List.flatMap_cons, List.filterMap_append]
      rw [ih, notify_success_version_preview_eq]

theorem notify_failed_preview_eq (render : String → Ctx → String)
    (job : ValidationJob) (fresults : List FailedResult)
    (filePks : List Nat) (s t : String) :
    notify_failed render job fresults filePks
        { subject := s, text := t, preview_only := true }
      = (notify_failed render job fresults filePks
          { subject := s, text := t, preview_only := false }).filterMap
            toPreviewFailure := by
  unfold notify_failed
  induction fresults.filter (fun r => r.jobId == job.id
      && filePks.contains r.filePk) with
  | nil => rfl
  | cons r rest ih =>
      simp only [List.flatMap_cons, List.filterMap_append]
      rw [ih, notify_failed_result_preview_eq]

theorem notify_success_version_preview_shape (render : String → Ctx → String)
    (job : ValidationJob) (results : List ResultRow) (v : VersionInfo)
    (s t : String) :
    ∀ e ∈ notify_success_version render job results
        { subject := s, text := t, preview_only := true } v,
      ∃ su b a, e = NotifyEvent.previewSuccessMail su b a := by
  intro e he
  unfold notify_success_version successMailEvents at he
  cases herr : versionHasErrors job results v
  · rw [herr] at he
    cases hemp : (eligibleApps job v).isEmpty
    · rw [hemp] at he
      simp [List.mem_flatMap] at he
      obtain ⟨author, _, hee⟩ := he
      exact ⟨render s _, render t _, author, hee⟩
    · rw [hemp] at he
      simp at he
  · rw [herr] at he
    simp at he

theorem notify_failed_result_preview_shape (render : String → Ctx → String)
    (job : ValidationJob) (r : FailedResult) (s t : String) :
    ∀ e ∈ notify_failed_result render job
        { subject := s, text := t, preview_only := true } r,
      (∃ su b a, e = NotifyEvent.previewFailureMail su b a)
      ∨ ∃ ap vp vs fn tg, e = NotifyEvent.auditEmailed ap vp vs fn tg := by
  intro e he
  unfold notify_failed_result at he
  rcases List.mem_append.mp he with hm | hm
  · simp [List.mem_flatMap] at hm
    obtain ⟨author, _, hee⟩ := hm
    exact Or.inl ⟨render s _, render t _, author, hee⟩
  · simp at hm
    exact Or.inr ⟨r.addonPk, r.versionPk, r.versionStr, r.filename,
      job.targetVersion.version, hm⟩

/-- C3 (amended): with `preview_only` set, a success-notification run is
exactly the real run with the real sends redirected to the preview-success
delivery path (same rendered subject, body and recipient) and the compat
saves and audit entries removed — in particular it persists no max-version
bump, records no audit entry and sends no real mail; a failure-notification
run is the real run with sends redirected to the preview-failure path, but
its per-result `BULK_VALIDATION_EMAILED` audit entries remain: the code
records them outside the preview guard, so `notify_failed` writes audit
entries even in preview mode. -/
theorem preview_mode_isolation (render : String → Ctx → String)
    (versions : List VersionInfo) (job : ValidationJob)
    (results : List ResultRow) (fresults : List FailedResult)
    (filePks : List Nat) (s t : String) :
    notify_success render versions job results
        { subject := s, text := t, preview_only := true }
      = (notify_success render versions job results
          { subject := s, text := t, preview_only := false }).filterMap
            toPreviewSuccess
    ∧ (∀ e ∈ notify_success render versions job results
          { subject := s, text := t, preview_only := true },
        ∃ su b a, e = NotifyEvent.previewSuccessMail su b a)
    ∧ notify_failed render job fresults filePks
        { subject := s, text := t, preview_only := true }
      = (notify_failed render job fresults filePks
          { subject := s, text := t, preview_only := false }).filterMap
            toPreviewFailure
    ∧ (∀ e ∈ notify_failed render job fresults filePks
          { subject := s, text := t, preview_only := true },
        (∃ su b a, e = NotifyEvent.previewFailureMail su b a)
        ∨ ∃ ap vp vs fn tg, e = NotifyEvent.auditEmailed ap vp vs fn tg) := by
  refine ⟨notify_success_preview_eq render versions job results s t, ?_,
    notify_failed_preview_eq render job fresults filePks s t, ?_⟩
  · intro e he
    obtain ⟨v, _, hev⟩ := List.mem_flatMap.mp he
    exact notify_success_version_preview_shape render job results v s t e hev
  · intro e he
    obtain ⟨r, _, her⟩ := List.mem_flatMap.mp he
    exact notify_failed_result_preview_shape render job r s t e her

/-- A failed result row of job 2 on file 9, owned by add-on 77 /
version 4, with one author. -/
def demoFailedResult : FailedResult :=
  { pk := 21, jobId := 2, filePk := 9, filename := "addon.xpi",
    versionPk := 4, versionStr := "1.0", addonPk := 77, addonName := "A",
    addonSlug := "a", authors := ["dev@example.com"] }

/-- C3 counterexample: `notify_failed` with `preview_only=true` still
records the `BULK_VALIDATION_EMAILED` audit entry for the matching result
(the `amo.log` call sits outside the preview guard), contradicting the
claim that no audit-log entry is recorded in preview mode. -/
theorem preview_failed_still_audits :
    NotifyEvent.auditEmailed 77 4 "1.0" "addon.xpi" "5.0"
      ∈ notify_failed (fun tmpl _ => tmpl) jobNoRows [demoFailedResult] [9]
        { subject := "s", text := "b", preview_only := true } := by
  decide

/-- A version of add-on 77 with one compat entry matching application 1 /
max "4.0" and one author, owning file 9. -/
def demoVersionInfo : VersionInfo :=
  { pk := 4, version := "1.0",
    apps := [{ application := 1,
               max := { id := 10, application := 1, version := "4.0" } }],
    filePks := [9], addonPk := 77, addonName := "A", addonSlug := "a",
    authors := ["dev@example.com"] }

/-- Witness for C3 at a concrete input: the single event of a preview
success run over `demoVersionInfo` is a preview-success delivery. -/
theorem preview_mode_isolation_witness :
    ∃ su b a, NotifyEvent.previewSuccessMail "s" "t" "dev@example.com"
      = NotifyEvent.previewSuccessMail su b a :=
  (preview_mode_isolation (fun tmpl _ => tmpl) [demoVersionInfo] jobNoRows
      [] [] [] "s" "t").2.1
    (NotifyEvent.previewSuccessMail "s" "t" "dev@example.com") (by decide)

theorem mem_eligibleApps_iff (job : ValidationJob) (v : VersionInfo)
    (a : AppCompat) :
    a ∈ eligibleApps job v ↔
      a ∈ v.apps ∧ a.application = job.currMaxVersion.application
        ∧ a.max.version = job.currMaxVersion.version
        ∧ job.targetVersion.version ≠ a.max.version := by
  simp only [eligibleApps, List.mem_filter, Bool.and_eq_true, beq_iff_eq,
    bne_iff_ne, ne_eq, and_assoc]

theorem saveCompat_not_mem_successMailEvents (render : String → Ctx → String)
    (job : ValidationJob) (results : List ResultRow) (data : NotifyData)
    (v : VersionInfo) (vpk app : Nat) (mx : String) :
    NotifyEvent.saveCompat vpk app mx ∉
      successMailEvents render job results data v := by
  intro h
  unfold successMailEvents at h
  simp only [List.mem_flatMap] at h
  obtain ⟨author, _, hee⟩ := h
  cases hp : data.preview_only <;> rw [hp] at hee <;> simp at hee

theorem versionHasErrors_of_no_results (job : ValidationJob)
    (results : List ResultRow) (v : VersionInfo)
    (h : jobResultsForVersion results job v = []) :
    versionHasErrors job results v = false := by
  simp [versionHasErrors, h]


theorem successMailEvents_mem (render : String → Ctx → String)
    (job : ValidationJob) (results : List ResultRow) (data : NotifyData)
    (v : VersionInfo) :
    ∀ e ∈ successMailEvents render job results data v,
      ∃ author ∈ v.authors,
        (data.preview_only = true
          ∧ ∃ su b, e = NotifyEvent.previewSuccessMail su b author)
        ∨ (data.preview_only = false
          ∧ ((∃ su b, e = NotifyEvent.sendMail su b author)
            ∨ e = NotifyEvent.auditUpdated v.addonPk v.pk v.version
                job.targetVersion.version)) := by
  intro e he
  unfold successMailEvents at he
  obtain ⟨author, hauth, hee⟩ := List.mem_flatMap.mp he
  refine ⟨author, hauth, ?_⟩
  cases hp : data.preview_only <;> rw [hp] at hee <;> simp at hee
  · exact Or.inr ⟨rfl, hee.imp (fun h => ⟨_, _, h⟩) (fun h => h)⟩
  · exact Or.inl ⟨rfl, _, _, hee⟩

/-- C7: per version processed by `notify_success`: (a) a version with an
erroring result row is skipped entirely — no events at all; (b) the bump
of a compat entry is persisted (a `saveCompat` with the job's target
version) exactly when the version has no erroring result, the run is not
a preview, and some compat entry of the version matches the job's
application with max version equal to the job's current-max while the
job's target differs from it; (c) author mails (real or preview) fire
only for an error-free version with at least one such eligible entry;
(d) audit entries only on non-preview runs over an error-free version
with an eligible entry. -/
theorem notify_success_version_behavior (render : String → Ctx → String)
    (job : ValidationJob) (results : List ResultRow) (data : NotifyData)
    (v : VersionInfo) :
    (versionHasErrors job results v = true →
      notify_success render [v] job results data = [])
    ∧ (∀ (app : Nat) (mx : String),
        NotifyEvent.saveCompat v.pk app mx
            ∈ notify_success render [v] job results data ↔
          (versionHasErrors job results v = false
            ∧ data.preview_only = false
            ∧ mx = job.targetVersion.version
            ∧ ∃ a ∈ v.apps, a.application = app
              ∧ a.application = job.currMaxVersion.application
              ∧ a.max.version = job.currMaxVersion.version
              ∧ job.targetVersion.version ≠ a.max.version))
    ∧ (∀ su b rcpt,
        (NotifyEvent.sendMail su b rcpt
            ∈ notify_success render [v] job results data
          ∨ NotifyEvent.previewSuccessMail su b rcpt
            ∈ notify_success render [v] job results data) →
        versionHasErrors job results v = false
          ∧ ∃ a ∈ v.apps, a.application = job.currMaxVersion.application
            ∧ a.max.version = job.currMaxVersion.version
            ∧ job.targetVersion.version ≠ a.max.version)
    ∧ (∀ ap vp vs tg,
        NotifyEvent.auditUpdated ap vp vs tg
            ∈ notify_success render [v] job results data →
        data.preview_only = false
          ∧ versionHasErrors job results v = false
          ∧ ∃ a ∈ v.apps, a.application = job.currMaxVersion.application
            ∧ a.max.version = job.currMaxVersion.version
            ∧ job.targetVersion.version ≠ a.max.version) := by
  have hsingle : notify_success render [v] job results data
      = notify_success_version render job results data v := by
    simp [notify_success]
  have hnonempty : (eligibleApps job v).isEmpty = false →
      ∃ a ∈ v.apps, a.application = job.currMaxVersion.application
        ∧ a.max.version = job.currMaxVersion.version
        ∧ job.targetVersion.version ≠ a.max.version := by
    intro hemp
    have hne : eligibleApps job v ≠ [] := by
      intro hnil
      rw [hnil] at hemp
      simp at hemp
    obtain ⟨a, ha⟩ := List.exists_mem_of_ne_nil (eligibleApps job v) hne
    exact ⟨a, (mem_eligibleApps_iff job v a).mp ha⟩
  refine ⟨?_, ?_, ?_, ?_⟩
  · intro herr
    rw [hsingle]
    unfold notify_success_version
    simp [herr]
  · intro app mx
    rw [hsingle]
    unfold notify_success_version
    cases herr : versionHasErrors job results v
    · cases hp : data.preview_only
      · simp only [Bool.false_eq_true, if_false, List.mem_append]
        constructor
        · intro hin
          rcases hin with hin | hin
          · obtain ⟨a, ha, heq⟩ := List.mem_map.mp hin
            obtain ⟨hmem2, happ, hmaxv, hne⟩ :=
              (mem_eligibleApps_iff job v a).mp ha
            cases heq
            exact ⟨trivial, trivial, rfl, a, hmem2, rfl, happ, hmaxv, hne⟩
          · exfalso
            cases hemp : (eligibleApps job v).isEmpty
            · rw [hemp] at hin
              simp at hin
              exact saveCompat_not_mem_successMailEvents render job results
                data v v.pk app mx hin
            · rw [hemp] at hin
              simp at hin
        · rintro ⟨-, -, hmx, a, hmem2, happeq, happ, hmaxv, hne⟩
          subst hmx
          subst happeq
          exact Or.inl (List.mem_map.mpr
            ⟨a, (mem_eligibleApps_iff job v a).mpr ⟨hmem2, happ, hmaxv, hne⟩,
             rfl⟩)
      · constructor
        · intro hin
          exfalso
          simp at hin
          exact saveCompat_not_mem_successMailEvents render job results
            data v v.pk app mx hin.2
        · rintro ⟨-, hpf, -⟩
          exact absurd hpf (by simp [hp])
    · constructor
      · intro hin
        simp at hin
      · rintro ⟨hef, -⟩
        exact absurd hef (by simp [herr])
  · intro su b rcpt hmem
    rw [hsingle] at hmem
    unfold notify_success_version at hmem
    cases herr : versionHasErrors job results v
    · rw [herr] at hmem
      simp only [Bool.false_eq_true, if_false, List.mem_append] at hmem
      refine ⟨rfl, ?_⟩
      rcases hmem with hm | hm <;> rcases hm with hin | hin
      · cases hp : data.preview_only <;> rw [hp] at hin <;> simp at hin
      · cases hemp : (eligibleApps job v).isEmpty
        · rw [hemp] at hin
          simp at hin
          exact hnonempty hemp
        · rw [hemp] at hin
          simp at hin
      · cases hp : data.preview_only <;> rw [hp] at hin <;> simp at hin
      · cases hemp : (eligibleApps job v).isEmpty
        · rw [hemp] at hin
          simp at hin
          exact hnonempty hemp
        · rw [hemp] at hin
          simp at hin
    · rw [herr] at hmem
      simp at hmem
  · intro ap vp vs tg hmem
    rw [hsingle] at hmem
    unfold notify_success_version at hmem
    cases herr : versionHasErrors job results v
    · rw [herr] at hmem
      simp only [Bool.false_eq_true, if_false, List.mem_append] at hmem
      rcases hmem with hin | hin
      · exfalso
        cases hp : data.preview_only <;> rw [hp] at hin <;> simp at hin
      · cases hemp : (eligibleApps job v).isEmpty
        · rw [hemp] at hin
          simp at hin
          obtain ⟨author, -, hsh⟩ :=
            successMailEvents_mem render job results data v _ hin
          rcases hsh with ⟨-, su2, b2, heq⟩ | ⟨hp2, heq | heq⟩
          · simp at heq
          · obtain ⟨su2, b2, heq⟩ := heq
            simp at heq
          · exact ⟨hp2, rfl, hnonempty hemp⟩
        · rw [hemp] at hin
          simp at hin
    · rw [herr] at hmem
      simp at hmem

/-- Witness for C7 at a concrete input: over `demoVersionInfo` (no results
for the job, one matching compat entry at the job's current-max), a real
run persists the bump of application 1 to "5.0". -/
theorem notify_success_version_behavior_witness :
    NotifyEvent.saveCompat 4 1 "5.0"
      ∈ notify_success (fun tmpl _ => tmpl) [demoVersionInfo] jobNoRows []
          { subject := "s", text := "t", preview_only := false } :=
  ((notify_success_version_behavior (fun tmpl _ => tmpl) jobNoRows []
      { subject := "s", text := "t", preview_only := false }
      demoVersionInfo).2.1 1 "5.0").mpr
    ⟨by decide, rfl, rfl,
     { application := 1, max := { id := 10, application := 1, version := "4.0" } },
     by decide, rfl, rfl, rfl, by decide⟩

/-- C9: a version none of whose files has any result row for the job
passes the error scan vacuously (`any` over an empty list is false), so it
is not skipped: with an eligible compat entry, a non-preview run still
persists the bump and mails every author of the add-on, even though none
of the version's files were validated in the job. -/
theorem vacuous_error_check_version_bumped (render : String → Ctx → String)
    (job : ValidationJob) (results : List ResultRow) (data : NotifyData)
    (v : VersionInfo) (a : AppCompat)
    (hnores : jobResultsForVersion results job v = [])
    (ha : a ∈ v.apps)
    (happ : a.application = job.currMaxVersion.application)
    (hmaxv : a.max.version = job.currMaxVersion.version)
    (hne : job.targetVersion.version ≠ a.max.version)
    (hnp : data.preview_only = false) :
    versionHasErrors job results v = false
    ∧ NotifyEvent.saveCompat v.pk a.application job.targetVersion.version
        ∈ notify_success render [v] job results data
    ∧ ∀ author ∈ v.authors, ∃ su b,
        NotifyEvent.sendMail su b author
          ∈ notify_success render [v] job results data := by
  have herr := versionHasErrors_of_no_results job results v hnores
  have helig : a ∈ eligibleApps job v :=
    (mem_eligibleApps_iff job v a).mpr ⟨ha, happ, hmaxv, hne⟩
  have hsingle : notify_success render [v] job results data
      = notify_success_version render job results data v := by
    simp [notify_success]
  have hempf : (eligibleApps job v).isEmpty = false := by
    have hne2 : eligibleApps job v ≠ [] := by
      intro hnil
      rw [hnil] at helig
      exact absurd helig (List.not_mem_nil a)
    cases hI : (eligibleApps job v).isEmpty
    · rfl
    · exact absurd (by simpa using hI) hne2
  refine ⟨herr, ?_, ?_⟩
  · rw [hsingle]
    unfold notify_success_version
    simp only [herr, hnp, Bool.false_eq_true, if_false]
    exact List.mem_append_left _ (List.mem_map.mpr ⟨a, helig, rfl⟩)
  · intro author hauth
    rw [hsingle]
    unfold notify_success_version
    simp only [herr, hempf, Bool.false_eq_true, if_false]
    refine ⟨render data.subject (get_context v.addonName v.addonSlug
        v.addonPk v.version v.pk job
        ((jobResultsForVersion results job v).map (fun r => r.pk))),
      render data.text (get_context v.addonName v.addonSlug
        v.addonPk v.version v.pk job
        ((jobResultsForVersion results job v).map (fun r => r.pk))),
      List.mem_append_right _ ?_⟩
    simp only [successMailEvents]
    refine List.mem_flatMap.mpr ⟨author, hauth, ?_⟩
    rw [hnp]
    simp only [Bool.false_eq_true, if_false]
    exact List.mem_cons_self _ _

/-- Witness for C9 at a concrete input: no result row of job 2 touches
`demoVersionInfo`, yet a non-preview run bumps its compat entry. -/
theorem vacuous_error_check_version_bumped_witness :
    versionHasErrors jobNoRows [] demoVersionInfo = false
    ∧ NotifyEvent.saveCompat demoVersionInfo.pk 1
        jobNoRows.targetVersion.version
        ∈ notify_success (fun tmpl _ => tmpl) [demoVersionInfo] jobNoRows []
            { subject := "s", text := "t", preview_only := false }
    ∧ ∀ author ∈ demoVersionInfo.authors, ∃ su b,
        NotifyEvent.sendMail su b author
          ∈ notify_success (fun tmpl _ => tmpl) [demoVersionInfo] jobNoRows []
              { subject := "s", text := "t", preview_only := false } :=
  vacuous_error_check_version_bumped (fun tmpl _ => tmpl) jobNoRows []
    { subject := "s", text := "t", preview_only := false } demoVersionInfo
    { application := 1, max := { id := 10, application := 1, version := "4.0" } }
    rfl (by decide) rfl rfl (by decide) rfl

/-- Is the event a `BULK_VALIDATION_EMAILED` audit entry? -/
def isAuditEmailedEvent : NotifyEvent → Bool
  | NotifyEvent.auditEmailed _ _ _ _ _ => true
  | _ => false

theorem countP_audit_flatMap_zero :
    ∀ (authors : List String) (f : String → List NotifyEvent),
      (∀ author, ∀ e ∈ f author, isAuditEmailedEvent e = false) →
      (authors.flatMap f).countP isAuditEmailedEvent = 0
  | [], _, _ => rfl
  | author :: rest, f, hf => by
      rw [List.flatMap_cons, List.countP_append,
          countP_audit_flatMap_zero rest f hf, Nat.add_zero]
      rw [List.countP_eq_zero]
      intro e he
      simp [hf author e he]

theorem countP_audit_notify_failed_result (render : String → Ctx → String)
    (job : ValidationJob) (data : NotifyData) (r : FailedResult) :
    (notify_failed_result render job data r).countP isAuditEmailedEvent = 1 := by
  simp only [notify_failed_result]
  rw [List.countP_append]
  rw [countP_audit_flatMap_zero]
  · rfl
  · intro author e he
    cases hp : data.preview_only <;> rw [hp] at he <;> simp at he <;>
      rw [he] <;> rfl

/-- C10: `notify_failed` records exactly one `BULK_VALIDATION_EMAILED`
audit entry per result row matching the given files and job — the entry
carries the version string, the file's filename and the job's target
version — independently of how many author mails are sent for it (the
`amo.log` call sits after the author loop, outside any guard), so it is
recorded even for a result whose add-on has no authors. -/
theorem notify_failed_audit_once_per_result (render : String → Ctx → String)
    (job : ValidationJob) (fresults : List FailedResult)
    (filePks : List Nat) (data : NotifyData) :
    (notify_failed render job fresults filePks data).countP
        isAuditEmailedEvent
      = (fresults.filter (fun r => r.jobId == job.id
          && filePks.contains r.filePk)).length
    ∧ ∀ r ∈ fresults.filter (fun r => r.jobId == job.id
        && filePks.contains r.filePk),
        NotifyEvent.auditEmailed r.addonPk r.versionPk r.versionStr
            r.filename job.targetVersion.version
          ∈ notify_failed render job fresults filePks data := by
  constructor
  · unfold notify_failed
    induction fresults.filter (fun r => r.jobId == job.id
        && filePks.contains r.filePk) with
    | nil => rfl
    | cons r rest ih =>
        rw [List.flatMap_cons, List.countP_append, ih,
            countP_audit_notify_failed_result, List.length_cons,
            Nat.add_comm]
  · intro r hr
    unfold notify_failed
    refine List.mem_flatMap.mpr ⟨r, hr, ?_⟩
    simp only [notify_failed_result]
    exact List.mem_append_right _ (List.mem_cons_self _ _)

/-- A failed result row of job 2 whose add-on has no authors at all. -/
def demoFailedNoAuthors : FailedResult :=
  { pk := 22, jobId := 2, filePk := 9, filename := "addon.xpi",
    versionPk := 4, versionStr := "1.0", addonPk := 77, addonName := "A",
    addonSlug := "a", authors := [] }

/-- Witness for C10 at a concrete input: a matching result whose add-on
has zero authors (so zero mails) still gets its audit entry. -/
theorem notify_failed_audit_once_per_result_witness :
    NotifyEvent.auditEmailed 77 4 "1.0" "addon.xpi" "5.0"
      ∈ notify_failed (fun tmpl _ => tmpl) jobNoRows [demoFailedNoAuthors]
          [9] { subject := "s", text := "b", preview_only := false } :=
  (notify_failed_audit_once_per_result (fun tmpl _ => tmpl) jobNoRows
      [demoFailedNoAuthors] [9]
      { subject := "s", text := "b", preview_only := false }).2
    demoFailedNoAuthors (by decide)
